import Mathlib

/-!
Verification development for the `claude-tui` terminal chat client.

The repository contains two implementation variants of the same design:
a blocking variant (`src/main.rs`, using `reqwest::blocking` and
`BufReader::lines`) and an async variant (`src/api.rs`, `src/app.rs`,
`src/conversation.rs`, using `reqwest` byte streams and a manual line
buffer).  Both are embedded below, each definition translated from the
corresponding Rust function.

Machine integers (`usize`, `u16`, `u32`) are modelled as `Nat`; the only
place a `usize` bound is observable is `scroll_to_bottom`, which stores
`usize::MAX`.  Bytes are modelled as `Nat` values below 256.
-/

set_option maxRecDepth 16384

namespace ClaudeTui

/-! ## UTF-8: encoding and lossy decoding

`src/api.rs` calls `String::from_utf8_lossy` on every network chunk
before pushing the result into its line buffer.  `from_utf8_lossy`
implements the WHATWG "maximal subparts" substitution policy: every
maximal prefix of a valid (possibly truncated) multi-byte sequence that
cannot be completed is replaced by one U+FFFD replacement character.
The decoder below implements exactly that policy; `utf8Encode` is the
standard UTF-8 encoder (Rust strings are always valid UTF-8, and Lean
`Char` and Rust `char` range over the same unicode scalar values).
-/

/-- The U+FFFD replacement character produced by lossy decoding. -/
def replacementChar : Char := Char.ofNat 0xFFFD

/-- Standard UTF-8 encoding of one unicode scalar value (1 to 4 bytes). -/
def encodeChar (c : Char) : List Nat :=
  let n := c.toNat
  if n < 0x80 then [n]
  else if n < 0x800 then [0xC0 + n / 64, 0x80 + n % 64]
  else if n < 0x10000 then
    [0xE0 + n / 4096, 0x80 + (n / 64) % 64, 0x80 + n % 64]
  else
    [0xF0 + n / 0x40000, 0x80 + (n / 4096) % 64, 0x80 + (n / 64) % 64, 0x80 + n % 64]

/-- UTF-8 encoding of a string, byte by byte. -/
def utf8Encode (s : String) : List Nat :=
  (s.data.map encodeChar).flatten

/-- Lossy UTF-8 decoding with the WHATWG maximal-subparts substitution
policy, as implemented by Rust's `String::from_utf8_lossy`.  A lead byte
whose continuation bytes are missing or out of range contributes one
replacement character for the longest valid prefix of the sequence, and
decoding resumes at the first unconsumed byte. -/
def utf8DecodeLossy : List Nat → List Char
  | [] => []
  | b :: rest =>
    if b < 0x80 then Char.ofNat b :: utf8DecodeLossy rest
    else if 0xC2 ≤ b ∧ b ≤ 0xDF then
      match rest with
      | [] => [replacementChar]
      | c1 :: rest2 =>
        if 0x80 ≤ c1 ∧ c1 ≤ 0xBF then
          Char.ofNat ((b - 0xC0) * 64 + (c1 - 0x80)) :: utf8DecodeLossy rest2
        else replacementChar :: utf8DecodeLossy (c1 :: rest2)
    else if 0xE0 ≤ b ∧ b ≤ 0xEF then
      match rest with
      | [] => [replacementChar]
      | c1 :: rest2 =>
        if (if b = 0xE0 then 0xA0 else 0x80) ≤ c1 ∧ c1 ≤ (if b = 0xED then 0x9F else 0xBF) then
          match rest2 with
          | [] => [replacementChar]
          | c2 :: rest3 =>
            if 0x80 ≤ c2 ∧ c2 ≤ 0xBF then
              Char.ofNat ((b - 0xE0) * 4096 + (c1 - 0x80) * 64 + (c2 - 0x80)) ::
                utf8DecodeLossy rest3
            else replacementChar :: utf8DecodeLossy (c2 :: rest3)
        else replacementChar :: utf8DecodeLossy (c1 :: rest2)
    else if 0xF0 ≤ b ∧ b ≤ 0xF4 then
      match rest with
      | [] => [replacementChar]
      | c1 :: rest2 =>
        if (if b = 0xF0 then 0x90 else 0x80) ≤ c1 ∧ c1 ≤ (if b = 0xF4 then 0x8F else 0xBF) then
          match rest2 with
          | [] => [replacementChar]
          | c2 :: rest3 =>
            if 0x80 ≤ c2 ∧ c2 ≤ 0xBF then
              match rest3 with
              | [] => [replacementChar]
              | c3 :: rest4 =>
                if 0x80 ≤ c3 ∧ c3 ≤ 0xBF then
                  Char.ofNat
                      ((b - 0xF0) * 0x40000 + (c1 - 0x80) * 4096 +
                        (c2 - 0x80) * 64 + (c3 - 0x80)) ::
                    utf8DecodeLossy rest4
                else replacementChar :: utf8DecodeLossy (c3 :: rest4)
            else replacementChar :: utf8DecodeLossy (c2 :: rest3)
        else replacementChar :: utf8DecodeLossy (c1 :: rest2)
    else replacementChar :: utf8DecodeLossy rest

lemma utf8DecodeLossy_ascii (b : Nat) (rest : List Nat) (h : b < 0x80) :
    utf8DecodeLossy (b :: rest) = Char.ofNat b :: utf8DecodeLossy rest := by
  match rest with
  | [] => rw [utf8DecodeLossy.eq_2, if_pos h]
  | [c] => rw [utf8DecodeLossy.eq_3, if_pos h]
  | [c, d] => rw [utf8DecodeLossy.eq_4, if_pos h]
  | c :: d :: e :: t => rw [utf8DecodeLossy.eq_5, if_pos h]

lemma utf8DecodeLossy_two (b1 b2 : Nat) (rest : List Nat)
    (h1 : 0xC2 ≤ b1 ∧ b1 ≤ 0xDF) (h2 : 0x80 ≤ b2 ∧ b2 ≤ 0xBF) :
    utf8DecodeLossy (b1 :: b2 :: rest) =
      Char.ofNat ((b1 - 0xC0) * 64 + (b2 - 0x80)) :: utf8DecodeLossy rest := by
  match rest with
  | [] => rw [utf8DecodeLossy.eq_3, if_neg (by omega : ¬ b1 < 0x80), if_pos h1, if_pos h2]
  | [c] => rw [utf8DecodeLossy.eq_4, if_neg (by omega : ¬ b1 < 0x80), if_pos h1, if_pos h2]
  | c :: d :: t =>
    rw [utf8DecodeLossy.eq_5, if_neg (by omega : ¬ b1 < 0x80), if_pos h1, if_pos h2]

lemma utf8DecodeLossy_three (b1 b2 b3 : Nat) (rest : List Nat)
    (h1 : 0xE0 ≤ b1 ∧ b1 ≤ 0xEF)
    (h2 : (if b1 = 0xE0 then 0xA0 else 0x80) ≤ b2 ∧ b2 ≤ (if b1 = 0xED then 0x9F else 0xBF))
    (h3 : 0x80 ≤ b3 ∧ b3 ≤ 0xBF) :
    utf8DecodeLossy (b1 :: b2 :: b3 :: rest) =
      Char.ofNat ((b1 - 0xE0) * 4096 + (b2 - 0x80) * 64 + (b3 - 0x80)) ::
        utf8DecodeLossy rest := by
  match rest with
  | [] =>
    rw [utf8DecodeLossy.eq_4, if_neg (by omega : ¬ b1 < 0x80),
      if_neg (by omega : ¬ (0xC2 ≤ b1 ∧ b1 ≤ 0xDF)), if_pos h1, if_pos h2, if_pos h3]
  | c :: t =>
    rw [utf8DecodeLossy.eq_5, if_neg (by omega : ¬ b1 < 0x80),
      if_neg (by omega : ¬ (0xC2 ≤ b1 ∧ b1 ≤ 0xDF)), if_pos h1, if_pos h2, if_pos h3]

lemma utf8DecodeLossy_four (b1 b2 b3 b4 : Nat) (rest : List Nat)
    (h1 : 0xF0 ≤ b1 ∧ b1 ≤ 0xF4)
    (h2 : (if b1 = 0xF0 then 0x90 else 0x80) ≤ b2 ∧ b2 ≤ (if b1 = 0xF4 then 0x8F else 0xBF))
    (h3 : 0x80 ≤ b3 ∧ b3 ≤ 0xBF)
    (h4 : 0x80 ≤ b4 ∧ b4 ≤ 0xBF) :
    utf8DecodeLossy (b1 :: b2 :: b3 :: b4 :: rest) =
      Char.ofNat
          ((b1 - 0xF0) * 0x40000 + (b2 - 0x80) * 4096 + (b3 - 0x80) * 64 + (b4 - 0x80)) ::
        utf8DecodeLossy rest := by
  rw [utf8DecodeLossy.eq_5, if_neg (by omega : ¬ b1 < 0x80),
    if_neg (by omega : ¬ (0xC2 ≤ b1 ∧ b1 ≤ 0xDF)),
    if_neg (by omega : ¬ (0xE0 ≤ b1 ∧ b1 ≤ 0xEF)), if_pos h1, if_pos h2, if_pos h3, if_pos h4]

/-- Decoding a correctly encoded character in front of any byte tail yields
that character followed by the decoding of the tail: `from_utf8_lossy` is
left inverse to UTF-8 encoding, character by character. -/
lemma utf8DecodeLossy_encodeChar (c : Char) (rest : List Nat) :
    utf8DecodeLossy (encodeChar c ++ rest) = c :: utf8DecodeLossy rest := by
  have hv : c.toNat < 0xd800 ∨ (0xdfff < c.toNat ∧ c.toNat < 0x110000) := c.valid
  set n := c.toNat with hn
  by_cases ha : n < 0x80
  · simp only [encodeChar, ← hn, if_pos ha, List.cons_append, List.nil_append]
    rw [utf8DecodeLossy_ascii _ _ ha, hn, Char.ofNat_toNat]
  · by_cases hb : n < 0x800
    · simp only [encodeChar, ← hn, if_neg ha, if_pos hb, List.cons_append, List.nil_append]
      rw [utf8DecodeLossy_two _ _ _ ⟨by omega, by omega⟩ ⟨by omega, by omega⟩]
      have : (0xC0 + n / 64 - 0xC0) * 64 + (0x80 + n % 64 - 0x80) = n := by omega
      rw [this, hn, Char.ofNat_toNat]
    · by_cases hc : n < 0x10000
      · simp only [encodeChar, ← hn, if_neg ha, if_neg hb, if_pos hc, List.cons_append,
          List.nil_append]
        rw [utf8DecodeLossy_three _ _ _ _ ⟨by omega, by omega⟩
          ⟨?_, ?_⟩ ⟨by omega, by omega⟩]
        · have : (0xE0 + n / 4096 - 0xE0) * 4096 + (0x80 + n / 64 % 64 - 0x80) * 64 +
              (0x80 + n % 64 - 0x80) = n := by omega
          rw [this, hn, Char.ofNat_toNat]
        · split
          · omega
          · omega
        · split
          · omega
          · omega
      · simp only [encodeChar, ← hn, if_neg ha, if_neg hb, if_neg hc, List.cons_append,
          List.nil_append]
        rw [utf8DecodeLossy_four _ _ _ _ _ ⟨by omega, by omega⟩
          ⟨?_, ?_⟩ ⟨by omega, by omega⟩ ⟨by omega, by omega⟩]
        · have : (0xF0 + n / 0x40000 - 0xF0) * 0x40000 + (0x80 + n / 4096 % 64 - 0x80) * 4096 +
              (0x80 + n / 64 % 64 - 0x80) * 64 + (0x80 + n % 64 - 0x80) = n := by omega
          rw [this, hn, Char.ofNat_toNat]
        · split
          · omega
          · omega
        · split
          · omega
          · omega

/-- `from_utf8_lossy` recovers exactly the characters of a string from its
UTF-8 encoding (valid encodings decode without any replacement). -/
lemma utf8DecodeLossy_utf8Encode (s : String) : utf8DecodeLossy (utf8Encode s) = s.data := by
  show utf8DecodeLossy ((s.data.map encodeChar).flatten) = s.data
  induction s.data with
  | nil => rfl
  | cons c cs ih =>
    simp only [List.map_cons, List.flatten_cons]
    rw [utf8DecodeLossy_encodeChar, ih]

/-! ## JSON

Both variants decode each `data: ` frame with `serde_json::from_str`.
The model below is a JSON parser (values, objects, arrays, strings with
escapes and surrogate pairs, numbers kept as validated lexemes — no
claim inspects a numeric value beyond `usize` fields) followed by the
derived-`Deserialize` field extraction of the two Rust event types.
-/

/-- An opening curly brace. -/
def lbraceChar : Char := Char.ofNat 123

/-- A closing curly brace. -/
def rbraceChar : Char := Char.ofNat 125

/-- A parsed JSON value.  Numbers are kept as their source lexeme: no
claim compares numeric values beyond decoding `usize` fields, and the
lexeme is validated by the grammar below. -/
inductive Json where
  | null
  | boolean (b : Bool)
  | num (lexeme : String)
  | str (s : String)
  | arr (elems : List Json)
  | obj (fields : List (String × Json))

/-- JSON insignificant whitespace. -/
def isJsonWs (c : Char) : Bool := c = ' ' || c = '\t' || c = '\n' || c = '\r'

/-- Drop leading JSON whitespace. -/
def skipWs (l : List Char) : List Char := l.dropWhile isJsonWs

/-- Value of one hexadecimal digit. -/
def hexDigitVal (c : Char) : Option Nat :=
  if '0' ≤ c ∧ c ≤ '9' then some (c.toNat - '0'.toNat)
  else if 'a' ≤ c ∧ c ≤ 'f' then some (c.toNat - 'a'.toNat + 10)
  else if 'A' ≤ c ∧ c ≤ 'F' then some (c.toNat - 'A'.toNat + 10)
  else none

/-- Body of a JSON string literal, after the opening quote: processes
escapes (including `\uXXXX` with surrogate pairs; lone surrogates are an
error, as in `serde_json`), rejects unescaped control characters, and
stops at the closing quote. -/
def parseStringBody (acc : List Char) : List Char → Option (String × List Char)
  | [] => none
  | c :: rest =>
    if c = '"' then some (String.mk acc.reverse, rest)
    else if c = '\\' then
      match rest with
      | [] => none
      | e :: rest2 =>
        if e = '"' then parseStringBody ('"' :: acc) rest2
        else if e = '\\' then parseStringBody ('\\' :: acc) rest2
        else if e = '/' then parseStringBody ('/' :: acc) rest2
        else if e = 'b' then parseStringBody (Char.ofNat 8 :: acc) rest2
        else if e = 'f' then parseStringBody (Char.ofNat 12 :: acc) rest2
        else if e = 'n' then parseStringBody ('\n' :: acc) rest2
        else if e = 'r' then parseStringBody ('\r' :: acc) rest2
        else if e = 't' then parseStringBody ('\t' :: acc) rest2
        else if e = 'u' then
          match rest2 with
          | c1 :: c2 :: c3 :: c4 :: rest3 =>
            match hexDigitVal c1, hexDigitVal c2, hexDigitVal c3, hexDigitVal c4 with
            | some h1, some h2, some h3, some h4 =>
              let n := ((h1 * 16 + h2) * 16 + h3) * 16 + h4
              if 0xD800 ≤ n ∧ n ≤ 0xDBFF then
                match rest3 with
                | e2 :: u2 :: d1 :: d2 :: d3 :: d4 :: rest4 =>
                  if e2 = '\\' ∧ u2 = 'u' then
                    match hexDigitVal d1, hexDigitVal d2, hexDigitVal d3, hexDigitVal d4 with
                    | some g1, some g2, some g3, some g4 =>
                      let m := ((g1 * 16 + g2) * 16 + g3) * 16 + g4
                      if 0xDC00 ≤ m ∧ m ≤ 0xDFFF then
                        parseStringBody
                          (Char.ofNat (0x10000 + (n - 0xD800) * 0x400 + (m - 0xDC00)) :: acc)
                          rest4
                      else none
                    | _, _, _, _ => none
                  else none
                | _ => none
              else if 0xDC00 ≤ n ∧ n ≤ 0xDFFF then none
              else parseStringBody (Char.ofNat n :: acc) rest3
            | _, _, _, _ => none
          | _ => none
        else none
    else if c.toNat < 0x20 then none
    else parseStringBody (c :: acc) rest

/-- Exponent part of a JSON number (may be absent). -/
def parseNumExp (pre : List Char) (l : List Char) : Option (String × List Char) :=
  match l with
  | c :: rest =>
    if c = 'e' ∨ c = 'E' then
      match rest with
      | s :: rest2 =>
        if s = '+' ∨ s = '-' then
          match rest2.span (·.isDigit) with
          | (ds, rest3) => if ds.isEmpty then none
              else some (String.mk (pre ++ c :: s :: ds), rest3)
        else
          match rest.span (·.isDigit) with
          | (ds, rest3) => if ds.isEmpty then none
              else some (String.mk (pre ++ c :: ds), rest3)
      | [] => none
    else some (String.mk pre, l)
  | [] => some (String.mk pre, l)

/-- Fraction part of a JSON number (may be absent), then exponent. -/
def parseNumFrac (pre : List Char) (l : List Char) : Option (String × List Char) :=
  match l with
  | c :: rest =>
    if c = '.' then
      match rest.span (·.isDigit) with
      | (ds, rest2) => if ds.isEmpty then none else parseNumExp (pre ++ c :: ds) rest2
    else parseNumExp pre l
  | [] => parseNumExp pre l

/-- A JSON number lexeme: optional minus, integer part without leading
zeros, optional fraction, optional exponent. -/
def parseNumber (l : List Char) : Option (String × List Char) :=
  let (neg, l1) : List Char × List Char :=
    match l with
    | c :: rest => if c = '-' then ([c], rest) else ([], l)
    | [] => ([], l)
  match l1 with
  | c :: rest =>
    if c = '0' then parseNumFrac (neg ++ [c]) rest
    else if c.isDigit then
      match rest.span (·.isDigit) with
      | (ds, rest2) => parseNumFrac (neg ++ c :: ds) rest2
    else none
  | [] => none

mutual

/-- One JSON value, by recursive descent; the fuel bounds the length of
the (linear) chain of parsing steps and is decremented at every step. -/
def parseValueFuel : Nat → List Char → Option (Json × List Char)
  | 0, _ => none
  | fuel + 1, input =>
    match skipWs input with
    | [] => none
    | c :: rest =>
      if c = lbraceChar then parseMembersFirst fuel rest
      else if c = '[' then parseElemsFirst fuel rest
      else if c = '"' then
        match parseStringBody [] rest with
        | some (s, rest2) => some (Json.str s, rest2)
        | none => none
      else if c = 'n' then
        match rest with
        | 'u' :: 'l' :: 'l' :: rest2 => some (Json.null, rest2)
        | _ => none
      else if c = 't' then
        match rest with
        | 'r' :: 'u' :: 'e' :: rest2 => some (Json.boolean true, rest2)
        | _ => none
      else if c = 'f' then
        match rest with
        | 'a' :: 'l' :: 's' :: 'e' :: rest2 => some (Json.boolean false, rest2)
        | _ => none
      else
        match parseNumber (c :: rest) with
        | some (lx, rest2) => some (Json.num lx, rest2)
        | none => none

/-- The inside of a JSON object, just after the opening brace. -/
def parseMembersFirst : Nat → List Char → Option (Json × List Char)
  | 0, _ => none
  | fuel + 1, input =>
    match skipWs input with
    | [] => none
    | c :: rest =>
      if c = rbraceChar then some (Json.obj [], rest)
      else parseMembers fuel [] (c :: rest)

/-- The members of a non-empty JSON object. -/
def parseMembers : Nat → List (String × Json) → List Char → Option (Json × List Char)
  | 0, _, _ => none
  | fuel + 1, acc, input =>
    match skipWs input with
    | [] => none
    | c :: rest =>
      if c = '"' then
        match parseStringBody [] rest with
        | some (key, rest2) =>
          match skipWs rest2 with
          | [] => none
          | c2 :: rest3 =>
            if c2 = ':' then
              match parseValueFuel fuel rest3 with
              | some (v, rest4) =>
                match skipWs rest4 with
                | [] => none
                | c3 :: rest5 =>
                  if c3 = ',' then parseMembers fuel (acc ++ [(key, v)]) rest5
                  else if c3 = rbraceChar then some (Json.obj (acc ++ [(key, v)]), rest5)
                  else none
              | none => none
            else none
        | none => none
      else none

/-- The inside of a JSON array, just after the opening bracket. -/
def parseElemsFirst : Nat → List Char → Option (Json × List Char)
  | 0, _ => none
  | fuel + 1, input =>
    match skipWs input with
    | [] => none
    | c :: rest =>
      if c = ']' then some (Json.arr [], rest)
      else parseElems fuel [] (c :: rest)

/-- The elements of a non-empty JSON array. -/
def parseElems : Nat → List Json → List Char → Option (Json × List Char)
  | 0, _, _ => none
  | fuel + 1, acc, input =>
    match parseValueFuel fuel input with
    | some (v, rest) =>
      match skipWs rest with
      | [] => none
      | c :: rest2 =>
        if c = ',' then parseElems fuel (acc ++ [v]) rest2
        else if c = ']' then some (Json.arr (acc ++ [v]), rest2)
        else none
    | none => none

end

/-- `serde_json::from_str` on a character sequence: parse one value,
allow only trailing whitespace.  The fuel `4 * length + 8` exceeds the
length of any chain of parsing steps (every step consumes input or
enters a construct another step has consumed an opening token for). -/
def parseJsonChars (l : List Char) : Option Json :=
  match parseValueFuel (4 * l.length + 8) l with
  | some (j, rest) => if (skipWs rest).isEmpty then some j else none
  | none => none

/-- `serde_json::from_str` on a string. -/
def parseJson (s : String) : Option Json := parseJsonChars s.data

/-- First binding of a key in a parsed object. -/
def jsonLookup (fields : List (String × Json)) (key : String) : Option Json :=
  match fields with
  | [] => none
  | (k, v) :: rest => if k = key then some v else jsonLookup rest key

/-! ## Wire events

`src/api.rs` deserializes each frame into
`StreamEvent \x7b event_type, delta : Option<StreamDelta> \x7d` with
`StreamDelta \x7b delta_type : Option<String>, text : Option<String> \x7d`
(field `type` renamed, unknown fields ignored).  `src/main.rs` uses an
internally tagged enum over the discriminant `type`.
-/

/-- `StreamDelta` of `src/api.rs`. -/
structure AStreamDelta where
  delta_type : Option String
  text : Option String
deriving DecidableEq

/-- `StreamEvent` of `src/api.rs`. -/
structure AStreamEvent where
  event_type : String
  delta : Option AStreamDelta
deriving DecidableEq

/-- serde decoding of an `Option<String>` field: absent or `null` is
`None`, a string is `Some`, anything else is an error. -/
def decodeOptString : Option Json → Option (Option String)
  | none => some none
  | some Json.null => some none
  | some (Json.str s) => some (some s)
  | some _ => none

/-- serde decoding of `StreamDelta` (`src/api.rs`): both fields optional. -/
def decodeADelta : Json → Option AStreamDelta
  | Json.obj fs =>
    match decodeOptString (jsonLookup fs "type"), decodeOptString (jsonLookup fs "text") with
    | some dt, some tx => some ⟨dt, tx⟩
    | _, _ => none
  | _ => none

/-- serde decoding of `StreamEvent` (`src/api.rs`): required string field
`type`, optional `delta`. -/
def decodeAEvent : Json → Option AStreamEvent
  | Json.obj fs =>
    match jsonLookup fs "type" with
    | some (Json.str t) =>
      match jsonLookup fs "delta" with
      | none => some ⟨t, none⟩
      | some Json.null => some ⟨t, none⟩
      | some dj =>
        match decodeADelta dj with
        | some d => some ⟨t, some d⟩
        | none => none
    | _ => none
  | _ => none

/-- `serde_json::from_str::<StreamEvent>` of `src/api.rs`. -/
def parseAEvent (s : String) : Option AStreamEvent :=
  match parseJson s with
  | some j => decodeAEvent j
  | none => none

/-- `Delta` of `src/main.rs`: required `type`, optional `text`. -/
structure MDelta where
  delta_type : String
  text : Option String
deriving DecidableEq

/-- `StreamEvent` of `src/main.rs`: an internally tagged enum over the
`type` discriminant. -/
inductive MainStreamEvent where
  | messageStart (id : String)
  | contentBlockStart (index : Nat) (contentType : String) (text : Option String)
  | contentBlockDelta (index : Nat) (delta : MDelta)
  | contentBlockStop (index : Nat)
  | messageDelta (stopReason : Option String) (usage : Option (Option Nat))
  | messageStop
  | ping
  | error (message : String)
deriving DecidableEq

/-- serde decoding of a `usize`/`u32` field: an unsigned integer literal. -/
def decodeJsonNat : Json → Option Nat
  | Json.num lx =>
    if lx.data ≠ [] ∧ lx.data.all (·.isDigit) then
      some (lx.data.foldl (fun a c => a * 10 + (c.toNat - '0'.toNat)) 0)
    else none
  | _ => none

/-- serde decoding of an `Option<u32>` field. -/
def decodeOptNat : Option Json → Option (Option Nat)
  | none => some none
  | some Json.null => some none
  | some j =>
    match decodeJsonNat j with
    | some n => some (some n)
    | none => none

/-- serde decoding of `Delta` (`src/main.rs`). -/
def decodeMDelta : Json → Option MDelta
  | Json.obj fs =>
    match jsonLookup fs "type" with
    | some (Json.str dt) =>
      match decodeOptString (jsonLookup fs "text") with
      | some tx => some ⟨dt, tx⟩
      | none => none
    | _ => none
  | _ => none

/-- serde decoding of the tagged `StreamEvent` enum of `src/main.rs`:
the `type` field selects the variant, whose required fields must be
present; an unknown discriminant is an error. -/
def decodeMainEvent : Json → Option MainStreamEvent
  | Json.obj fs =>
    match jsonLookup fs "type" with
    | some (Json.str t) =>
      if t = "message_start" then
        match jsonLookup fs "message" with
        | some (Json.obj mfs) =>
          match jsonLookup mfs "id" with
          | some (Json.str i) => some (.messageStart i)
          | _ => none
        | _ => none
      else if t = "content_block_start" then
        match jsonLookup fs "index", jsonLookup fs "content_block" with
        | some ij, some (Json.obj cfs) =>
          match decodeJsonNat ij, jsonLookup cfs "type" with
          | some idx, some (Json.str ct) =>
            match decodeOptString (jsonLookup cfs "text") with
            | some tx => some (.contentBlockStart idx ct tx)
            | none => none
          | _, _ => none
        | _, _ => none
      else if t = "content_block_delta" then
        match jsonLookup fs "index", jsonLookup fs "delta" with
        | some ij, some dj =>
          match decodeJsonNat ij, decodeMDelta dj with
          | some idx, some d => some (.contentBlockDelta idx d)
          | _, _ => none
        | _, _ => none
      else if t = "content_block_stop" then
        match jsonLookup fs "index" with
        | some ij =>
          match decodeJsonNat ij with
          | some idx => some (.contentBlockStop idx)
          | none => none
        | none => none
      else if t = "message_delta" then
        match jsonLookup fs "delta" with
        | some (Json.obj dfs) =>
          match decodeOptString (jsonLookup dfs "stop_reason") with
          | some sr =>
            match jsonLookup fs "usage" with
            | none => some (.messageDelta sr none)
            | some Json.null => some (.messageDelta sr none)
            | some (Json.obj ufs) =>
              match decodeOptNat (jsonLookup ufs "output_tokens") with
              | some ot => some (.messageDelta sr (some ot))
              | none => none
            | some _ => none
          | none => none
        | _ => none
      else if t = "message_stop" then some .messageStop
      else if t = "ping" then some .ping
      else if t = "error" then
        match jsonLookup fs "error" with
        | some (Json.obj efs) =>
          match jsonLookup efs "message" with
          | some (Json.str m) => some (.error m)
          | _ => none
        | _ => none
      else none
    | _ => none
  | _ => none

/-- `serde_json::from_str::<StreamEvent>` of `src/main.rs`. -/
def parseMainEvent (s : String) : Option MainStreamEvent :=
  match parseJson s with
  | some j => decodeMainEvent j
  | none => none

/-! ## Streaming parser of `src/api.rs` (`send_message_streaming`)

After a successful status, the async variant pulls byte chunks from
`response.bytes_stream()`, pushes `String::from_utf8_lossy(&bytes)` of
each chunk into a `String` buffer, extracts every complete
`\n`-terminated line, and reacts to frames.  Each received chunk is an
`Except`: `ok bytes`, or `error e` for a mid-stream transport error
(whose message we carry opaquely); the chunk list ending models the
connection closing.  The bounded `tokio` channel always accepts the
sends, whose results the code discards.
-/

/-- `StreamChunk` of `src/api.rs`. -/
inductive StreamChunk where
  | text (s : String)
  | done
  | error (msg : String)
deriving DecidableEq

/-- What processing one complete line does: nothing, forward a chunk, or
forward a chunk and return from `send_message_streaming`. -/
inductive ALineStep where
  | skip
  | emit (c : StreamChunk)
  | halt (c : StreamChunk)
deriving DecidableEq

/-- The `"data: "` frame prefix (6 ASCII characters, so the byte offset 6
of `&line[6..]` is the character offset 6). -/
def dataPrefix : List Char := "data: ".data

/-- Processing of one complete line by `src/api.rs`: non-`data:` lines
are ignored; a frame that fails to deserialize is skipped; a
`content_block_delta` whose delta is a `text_delta` with text forwards
`Text`; `message_stop` forwards `Done` and returns; `error` forwards
`Error("Stream error")` and returns; other discriminants are ignored. -/
def apiProcessLine (line : List Char) : ALineStep :=
  if dataPrefix.isPrefixOf line then
    match parseAEvent (String.mk (line.drop 6)) with
    | some ev =>
      if ev.event_type = "content_block_delta" then
        match ev.delta with
        | some d =>
          if d.delta_type = some "text_delta" then
            match d.text with
            | some t => ALineStep.emit (StreamChunk.text t)
            | none => ALineStep.skip
          else ALineStep.skip
        | none => ALineStep.skip
      else if ev.event_type = "message_stop" then ALineStep.halt StreamChunk.done
      else if ev.event_type = "error" then ALineStep.halt (StreamChunk.error "Stream error")
      else ALineStep.skip
    | none => ALineStep.skip
  else ALineStep.skip

/-- Extraction of every complete line from the buffer (`while let
Some(newline_pos) = buffer.find(newline)`): returns the chunks sent and
either the leftover partial line (never containing a newline and never
decoded) or the terminal chunk if a line caused a return.  `cur` is the
reversed prefix of the current line. -/
def drainAux : List Char → List Char → List StreamChunk × (List Char ⊕ StreamChunk)
  | cur, [] => ([], Sum.inl cur.reverse)
  | cur, c :: rest =>
    if c = '\n' then
      match apiProcessLine cur.reverse with
      | ALineStep.skip => drainAux [] rest
      | ALineStep.emit ch =>
        let (cs, r) := drainAux [] rest
        (ch :: cs, r)
      | ALineStep.halt ch => ([], Sum.inr ch)
    else drainAux (c :: cur) rest

/-- The chunk loop of `send_message_streaming` after a successful
status, started with buffer `buf`: each `ok` chunk is lossily decoded
and appended to the buffer, complete lines are processed; a transport
error sends one `Error` and returns; when the stream ends a final `Done`
is sent. -/
def apiRun : List (Except String (List Nat)) → List Char → List StreamChunk
  | [], _ => [StreamChunk.done]
  | Except.error e :: _, _ => [StreamChunk.error e]
  | Except.ok bytes :: rest, buf =>
    match drainAux [] (buf ++ utf8DecodeLossy bytes) with
    | (cs, Sum.inl leftover) => cs ++ apiRun rest leftover
    | (cs, Sum.inr term) => cs ++ [term]

/-- Whether an HTTP status is a success (`StatusCode::is_success`). -/
def isSuccessStatus (status : Nat) : Bool :=
  if 200 ≤ status ∧ status ≤ 299 then true else false

/-- `send_message_streaming` (`src/api.rs`) given the response status,
the error body and the body chunks.  On a non-success status it sends
exactly one `Error` built from the status and the body (the model
renders the status as its bare code where Rust's `Display` also appends
the canonical reason; the message text is not load-bearing). -/
def apiSendStreaming (status : Nat) (errBody : String)
    (frags : List (Except String (List Nat))) : List StreamChunk :=
  if isSuccessStatus status then apiRun frags []
  else [StreamChunk.error ("API error " ++ toString status ++ ": " ++ errBody)]

/-! ## Streaming parser of `src/main.rs` (`stream_api_call`)

The blocking variant reads `BufReader::new(response).lines()`: the
reader accumulates raw bytes independently of network fragmentation and
yields one result per `\n`-terminated line (terminator stripped), so its
input is modelled as the list of line results. -/

/-- `AppEvent` of `src/main.rs`. -/
inductive AppEvent where
  | streamStart (tabId : Nat)
  | streamDelta (tabId : Nat) (text : String)
  | streamEnd (tabId : Nat)
  | streamError (tabId : Nat) (msg : String)
deriving DecidableEq

/-- The status-class classification of `stream_api_call` for a
non-success response (the fallback renders the status as its bare code
where Rust's `Display` also appends the canonical reason). -/
def mainClassifyStatus (status : Nat) (body : String) : String :=
  if status = 401 then "Invalid API key. Check your ANTHROPIC_API_KEY."
  else if status = 429 then "Rate limited. Please wait and try again."
  else if 500 ≤ status ∧ status ≤ 599 then "API server error. Please try again later."
  else "API error (" ++ toString status ++ "): " ++ body

/-- What one line makes the loop of `stream_api_call` do. -/
inductive MLineStep where
  | cont
  | emitDelta (t : String)
  | stopOk
  | stopErr (msg : String)
deriving DecidableEq

/-- Processing of one line by `stream_api_call`: non-`data:` lines are
skipped, `[DONE]` breaks, an undeserializable frame is skipped, a
`content_block_delta` with text emits it, an `error` event sends
`Error` and returns, `message_stop` breaks, the rest is ignored. -/
def mainLineStep (line : List Char) : MLineStep :=
  if dataPrefix.isPrefixOf line then
    let jsonStr := line.drop 6
    if jsonStr = "[DONE]".data then MLineStep.stopOk
    else
      match parseMainEvent (String.mk jsonStr) with
      | some (MainStreamEvent.contentBlockDelta _ d) =>
        match d.text with
        | some t => MLineStep.emitDelta t
        | none => MLineStep.cont
      | some (MainStreamEvent.error m) => MLineStep.stopErr m
      | some MainStreamEvent.messageStop => MLineStep.stopOk
      | some _ => MLineStep.cont
      | none => MLineStep.cont
  else MLineStep.cont

/-- The line loop of `stream_api_call`: a read error sends one
`StreamError` and returns; `break` and stream end fall through to the
final `StreamEnd`. -/
def mainProcessLines (tabId : Nat) : List (Except String String) → List AppEvent
  | [] => [AppEvent.streamEnd tabId]
  | Except.error e :: _ => [AppEvent.streamError tabId ("Read error: " ++ e)]
  | Except.ok line :: rest =>
    match mainLineStep line.data with
    | MLineStep.cont => mainProcessLines tabId rest
    | MLineStep.emitDelta t => AppEvent.streamDelta tabId t :: mainProcessLines tabId rest
    | MLineStep.stopOk => [AppEvent.streamEnd tabId]
    | MLineStep.stopErr m => [AppEvent.streamError tabId m]

/-- `stream_api_call` (`src/main.rs`) given the response status, the
error body and the line results: a non-success status sends exactly one
classified `StreamError`; otherwise `StreamStart` then the line loop. -/
def streamApiCall (tabId status : Nat) (errBody : String)
    (lines : List (Except String String)) : List AppEvent :=
  if isSuccessStatus status then
    AppEvent.streamStart tabId :: mainProcessLines tabId lines
  else [AppEvent.streamError tabId (mainClassifyStatus status errBody)]

/-! ## Input field of `src/main.rs`

`InputField.cursor` is a *byte* index into `content` in Rust
(`String::insert`/`String::remove` take byte offsets and panic on a
non-boundary index), but every operation moves it by exactly 1.
Fallible operations return `none` where the Rust code panics. -/

/-- Split a character list at a UTF-8 *byte* offset: `none` when the
offset exceeds the byte length or falls inside a character's encoding
(the two conditions under which `String::insert` panics). -/
def splitAtUtf8 : List Char → Nat → Option (List Char × List Char)
  | l, 0 => some ([], l)
  | [], _ + 1 => none
  | c :: rest, i + 1 =>
    if c.utf8Size ≤ i + 1 then
      match splitAtUtf8 rest (i + 1 - c.utf8Size) with
      | some (pre, post) => some (c :: pre, post)
      | none => none
    else none

/-- `String::insert` at a byte index; `none` models the panic. -/
def stringInsertChecked (s : String) (i : Nat) (c : Char) : Option String :=
  match splitAtUtf8 s.data i with
  | some (pre, post) => some (String.mk (pre ++ c :: post))
  | none => none

/-- `String::remove` at a byte index (removes the character starting
there); `none` models the panic, including removal at the end. -/
def stringRemoveChecked (s : String) (i : Nat) : Option String :=
  match splitAtUtf8 s.data i with
  | some (pre, _ :: post) => some (String.mk (pre ++ post))
  | some (_, []) => none
  | none => none

/-- Whether a byte offset is a character boundary of a string (or its
byte length). -/
def isCharBoundary (s : String) (i : Nat) : Bool :=
  (splitAtUtf8 s.data i).isSome

/-- `InputField` of `src/main.rs`. -/
structure InputField where
  content : String
  cursor : Nat
deriving DecidableEq

/-- A fresh empty input field. -/
def inputNew : InputField := ⟨"", 0⟩

/-- `InputField::insert`: insert at the cursor byte offset, advance the
cursor by 1 (not by the character's byte width). -/
def inputInsert (f : InputField) (c : Char) : Option InputField :=
  match stringInsertChecked f.content f.cursor c with
  | some s => some ⟨s, f.cursor + 1⟩
  | none => none

/-- `InputField::backspace`. -/
def inputBackspace (f : InputField) : Option InputField :=
  if 0 < f.cursor then
    match stringRemoveChecked f.content (f.cursor - 1) with
    | some s => some ⟨s, f.cursor - 1⟩
    | none => none
  else some f

/-- `InputField::delete` (guarded by `cursor < content.len()`, a byte
comparison). -/
def inputDelete (f : InputField) : Option InputField :=
  if f.cursor < f.content.utf8ByteSize then
    match stringRemoveChecked f.content f.cursor with
    | some s => some ⟨s, f.cursor⟩
    | none => none
  else some f

/-- `InputField::move_left`. -/
def inputMoveLeft (f : InputField) : InputField :=
  if 0 < f.cursor then ⟨f.content, f.cursor - 1⟩ else f

/-- `InputField::move_right` (bounded by the byte length). -/
def inputMoveRight (f : InputField) : InputField :=
  if f.cursor < f.content.utf8ByteSize then ⟨f.content, f.cursor + 1⟩ else f

/-- `InputField::move_start`. -/
def inputMoveStart (f : InputField) : InputField := ⟨f.content, 0⟩

/-- `InputField::move_end`. -/
def inputMoveEnd (f : InputField) : InputField := ⟨f.content, f.content.utf8ByteSize⟩

/-- The editing operations reachable from the key handlers. -/
inductive EditOp where
  | insert (c : Char)
  | backspace
  | delete
  | left
  | right
  | home
  | toEnd
deriving DecidableEq

/-- One editing operation applied to the input field. -/
def applyEditOp (f : InputField) : EditOp → Option InputField
  | EditOp.insert c => inputInsert f c
  | EditOp.backspace => inputBackspace f
  | EditOp.delete => inputDelete f
  | EditOp.left => some (inputMoveLeft f)
  | EditOp.right => some (inputMoveRight f)
  | EditOp.home => some (inputMoveStart f)
  | EditOp.toEnd => some (inputMoveEnd f)

/-- A sequence of editing operations; `none` as soon as one panics. -/
def applyEditOps (f : InputField) : List EditOp → Option InputField
  | [] => some f
  | op :: rest =>
    match applyEditOp f op with
    | some f2 => applyEditOps f2 rest
    | none => none

/-! ## Application state of `src/main.rs`

The model keeps the fields the claims observe; the purely presentational
fields (`mode`, `should_quit`, `show_help`) and the process-wide event
channel are omitted.  `scroll_to_bottom` stores `usize::MAX`. -/

/-- Message roles. -/
inductive Role where
  | user
  | assistant
deriving DecidableEq

/-- `Message` of `src/main.rs` (role and content only). -/
structure MMessage where
  role : Role
  content : String
deriving DecidableEq

/-- `usize::MAX`. -/
def usizeMax : Nat := 2 ^ 64 - 1

/-- `Conversation` of `src/main.rs`. -/
structure MConversation where
  id : Nat
  name : String
  messages : List MMessage
  scroll_offset : Nat
  is_loading : Bool
  streaming_content : String
  input : InputField
deriving DecidableEq

/-- `Conversation::new`. -/
def mConvNew (id : Nat) : MConversation :=
  ⟨id, "Chat " ++ toString (id + 1), [], 0, false, "", inputNew⟩

/-- `Conversation::add_message` (push, then `scroll_to_bottom`). -/
def mAddMessage (c : MConversation) (role : Role) (content : String) : MConversation :=
  { c with messages := c.messages ++ [⟨role, content⟩], scroll_offset := usizeMax }

/-- `App` of `src/main.rs`. -/
structure MApp where
  conversations : List MConversation
  active_tab : Nat
  next_id : Nat
  api_key : Option String
  error_message : Option String
  status_message : Option String
deriving DecidableEq

/-- `App::new_tab`. -/
def newTab (a : MApp) : MApp :=
  let convs := a.conversations ++ [mConvNew a.next_id]
  { a with next_id := a.next_id + 1, conversations := convs, active_tab := convs.length - 1 }

/-- `App::close_tab`: no-op when only one conversation is left;
otherwise remove the active one and clamp the index. -/
def closeTab (a : MApp) : MApp :=
  if 1 < a.conversations.length then
    let convs := a.conversations.eraseIdx a.active_tab
    { a with conversations := convs,
             active_tab := if convs.length ≤ a.active_tab then convs.length - 1 else a.active_tab }
  else a

/-- `App::next_tab` (wraps). -/
def nextTabM (a : MApp) : MApp :=
  if a.conversations.isEmpty then a
  else { a with active_tab := (a.active_tab + 1) % a.conversations.length }

/-- `App::prev_tab` (wraps). -/
def prevTabM (a : MApp) : MApp :=
  if a.conversations.isEmpty then a
  else
    { a with
      active_tab :=
        if a.active_tab = 0 then a.conversations.length - 1 else a.active_tab - 1 }

/-- The digit-key tab switch of `handle_normal_mode`: switch only when
the (0-based) index is in range. -/
def switchTabDigit (a : MApp) (idx : Nat) : MApp :=
  if idx < a.conversations.length then { a with active_tab := idx } else a

/-- `App::send_message`.  Returns the new state and, when a worker
thread is spawned, the message snapshot and tab id passed to
`stream_api_call`.  An out-of-range active tab would panic in Rust
(`current_conversation_mut` indexes); the model returns the state
unchanged there, and every theorem assumes the `AppState` invariant
which rules it out. -/
def sendMessage (a : MApp) : MApp × Option (List MMessage × Nat) :=
  match a.conversations.get? a.active_tab with
  | none => (a, none)
  | some conv =>
    if conv.input.content.isEmpty || conv.is_loading then (a, none)
    else
      let content := conv.input.content
      let conv1 := mAddMessage { conv with input := inputNew } Role.user content
      let a1 := { a with conversations := a.conversations.set a.active_tab conv1,
                         error_message := none }
      match a.api_key with
      | none =>
        ({ a1 with
            error_message := some "ANTHROPIC_API_KEY not set. Export it and restart." }, none)
      | some _ =>
        let conv2 := { conv1 with is_loading := true, streaming_content := "" }
        ({ a1 with conversations := a.conversations.set a.active_tab conv2 },
          some (conv2.messages, conv2.id))

/-- Mutate the first conversation with a given id, as
`iter_mut().find(|c| c.id == tab_id)` does. -/
def updateFirstById (convs : List MConversation) (tabId : Nat)
    (f : MConversation → MConversation) : List MConversation :=
  match convs with
  | [] => []
  | c :: rest => if c.id = tabId then f c :: rest else c :: updateFirstById rest tabId f

/-- The `StreamEnd` mutation: stop loading and, when the accumulated
text is non-empty, move it into a trailing `Assistant` message. -/
def streamEndUpdate (c : MConversation) : MConversation :=
  let c1 := { c with is_loading := false }
  if c1.streaming_content.isEmpty then c1
  else mAddMessage { c1 with streaming_content := "" } Role.assistant c1.streaming_content

/-- One iteration of `App::process_events`: the increment's tab id is
looked up among the live conversations; when absent nothing is mutated.
`StreamEnd` additionally triggers `save_conversations`, which takes
`&self` and mutates no state; `StreamError` records the message in the
status slot only when the increment belongs to the active tab. -/
def processOneEvent (a : MApp) (e : AppEvent) : MApp :=
  match e with
  | AppEvent.streamStart t =>
    { a with
      conversations := updateFirstById a.conversations t
        (fun c => { c with streaming_content := "" }) }
  | AppEvent.streamDelta t txt =>
    { a with
      conversations := updateFirstById a.conversations t
        (fun c => { c with streaming_content := c.streaming_content ++ txt,
                           scroll_offset := usizeMax }) }
  | AppEvent.streamEnd t =>
    { a with conversations := updateFirstById a.conversations t streamEndUpdate }
  | AppEvent.streamError t msg =>
    let a1 :=
      { a with
        conversations := updateFirstById a.conversations t
          (fun c => { c with is_loading := false, streaming_content := "" }) }
    if (a1.conversations.get? a1.active_tab).map (fun c => c.id) = some t then
      { a1 with error_message := some msg }
    else a1

/-- The tab id an increment is tagged with. -/
def eventTab : AppEvent → Nat
  | AppEvent.streamStart t => t
  | AppEvent.streamDelta t _ => t
  | AppEvent.streamEnd t => t
  | AppEvent.streamError t _ => t

/-! ## Conversations of `src/conversation.rs` and state of `src/app.rs`

`Message.timestamp` (`Local::now()`) is supplied by the caller in the
model; `Conversation.id` (`Uuid::new_v4()`, process-random and never
compared by the core logic) is omitted. -/

/-- `Message` of `src/conversation.rs`. -/
structure CMessage where
  role : Role
  content : String
  timestamp : Nat
deriving DecidableEq

/-- `Conversation` of `src/conversation.rs`. -/
structure CConversation where
  title : Option String
  messages : List CMessage
  system_prompt : Option String
  scroll_offset : Nat
deriving DecidableEq

/-- `Conversation::new`. -/
def cConvNew : CConversation := ⟨none, [], none, 0⟩

/-- `Conversation::generate_title`: only when no title is set, take the
first `User` message, truncate its content to 30 *characters*, and
append an ellipsis when the content's *byte* length (`String::len`)
exceeds 30. -/
def generateTitle (c : CConversation) : CConversation :=
  if c.title = none then
    match c.messages.find? (fun m => m.role == Role.user) with
    | some msg =>
      { c with
        title := some (String.mk (msg.content.data.take 30) ++
          if 30 < msg.content.utf8ByteSize then "..." else "") }
    | none => c
  else c

/-- `Conversation::add_message` (push, then `generate_title`). -/
def cAddMessage (c : CConversation) (m : CMessage) : CConversation :=
  generateTitle { c with messages := c.messages ++ [m] }

/-- `Mode` of `src/app.rs`. -/
inductive AMode where
  | normal
  | insert
  | help
deriving DecidableEq

/-- `App` of `src/app.rs`.  `api_client : Option<ApiClient>` is observed
only through `is_some` (`has_api_key`), kept as a `Bool`. -/
structure AApp where
  input : String
  cursor_position : Nat
  mode : AMode
  conversations : List CConversation
  active_tab : Nat
  has_api_key : Bool
  is_loading : Bool
  error_message : Option String
  status_message : Option String
  current_model : Option String
  pending_model_change : Option String
deriving DecidableEq

/-- `App::new_conversation`. -/
def aNewConversation (a : AApp) : AApp :=
  let convs := a.conversations ++ [cConvNew]
  { a with conversations := convs, active_tab := convs.length - 1 }

/-- `App::close_current_conversation` (same shape as `close_tab`). -/
def aCloseCurrent (a : AApp) : AApp :=
  if 1 < a.conversations.length then
    let convs := a.conversations.eraseIdx a.active_tab
    { a with conversations := convs,
             active_tab := if convs.length ≤ a.active_tab then convs.length - 1 else a.active_tab }
  else a

/-- `App::next_tab` of `src/app.rs` (clamps at the last tab; the
`len() - 1` is `Nat` subtraction, defined since every caller works on a
non-empty conversation list). -/
def aNextTab (a : AApp) : AApp :=
  if a.active_tab < a.conversations.length - 1 then { a with active_tab := a.active_tab + 1 }
  else a

/-- `App::prev_tab` of `src/app.rs` (clamps at the first tab). -/
def aPrevTab (a : AApp) : AApp :=
  if 0 < a.active_tab then { a with active_tab := a.active_tab - 1 } else a

/-- `App::set_error`. -/
def aSetError (a : AApp) (e : String) : AApp :=
  { a with error_message := some e, is_loading := false }

/-- `input.splitn(2, ' ')`: the part before the first space and, when a
space occurs, the rest. -/
def splitn2Space (s : String) : String × Option String :=
  match s.data.span (fun c => c ≠ ' ') with
  | (pre, []) => (String.mk pre, none)
  | (pre, _ :: post) => (String.mk pre, some (String.mk post))

/-- `App::handle_command`: `/model` with an argument stages a pending
model change, without one reports the current model; `/help` opens the
help mode; anything else is an error. -/
def aHandleCommand (a : AApp) (input : String) : AApp :=
  let parts := splitn2Space input
  if parts.1 = "/model" then
    match parts.2 with
    | some arg =>
      let newModel := arg.trim
      { a with pending_model_change := some newModel,
               status_message := some ("Model set to: " ++ newModel) }
    | none =>
      let current := (a.current_model).getD "unknown"
      { a with status_message := some ("Current model: " ++ current) }
  else if parts.1 = "/help" then { a with mode := AMode.help }
  else aSetError a ("Unknown command: " ++ parts.1)

/-- `input.starts_with(slash)`. -/
def startsWithSlash (s : String) : Bool :=
  match s.data with
  | '/' :: _ => true
  | _ => false

/-- `App::submit` (`src/app.rs`): empty input is ignored; the input is
taken and the cursor reset; a `/`-prefixed line goes to the command
handler; otherwise a `User` message is appended (with the caller-supplied
timestamp) to the active conversation (out of range would panic in Rust;
the model substitutes a fresh conversation there, and the theorems
assume the invariant that rules it out) and the text is returned. -/
def aSubmit (a : AApp) (now : Nat) : AApp × Option String :=
  if a.input.isEmpty then (a, none)
  else
    let input := a.input
    let a1 := { a with input := "", cursor_position := 0 }
    if startsWithSlash input then (aHandleCommand a1 input, none)
    else
      let a2 :=
        { a1 with
          conversations := a1.conversations.set a1.active_tab
            (cAddMessage ((a1.conversations.get? a1.active_tab).getD cConvNew)
              ⟨Role.user, input, now⟩) }
      (a2, some input)

/-! ## Theorems: tab lifecycle -/

/-- The `AppState` invariant of the spec for `src/main.rs`: a non-empty
conversation sequence and an in-range active-tab index. -/
def appInv (a : MApp) : Prop :=
  0 < a.conversations.length ∧ a.active_tab < a.conversations.length

/-- The same invariant for the `src/app.rs` state. -/
def aAppInv (b : AApp) : Prop :=
  0 < b.conversations.length ∧ b.active_tab < b.conversations.length

instance (a : MApp) : Decidable (appInv a) := by unfold appInv; infer_instance

instance (b : AApp) : Decidable (aAppInv b) := by unfold aAppInv; infer_instance

lemma appInv_newTab (a : MApp) : appInv (newTab a) := by
  constructor <;>
    simp only [newTab, List.length_append, List.length_cons, List.length_nil] <;> omega

lemma appInv_closeTab (a : MApp) (h : appInv a) : appInv (closeTab a) := by
  obtain ⟨h1, h2⟩ := h
  by_cases hlen : 1 < a.conversations.length
  · rw [closeTab, if_pos hlen]
    constructor <;> simp only [List.length_eraseIdx, if_pos h2] <;>
      first | omega | (split <;> omega)
  · rw [closeTab, if_neg hlen]
    exact ⟨h1, h2⟩

lemma appInv_nextTabM (a : MApp) (h : appInv a) : appInv (nextTabM a) := by
  obtain ⟨h1, h2⟩ := h
  rw [nextTabM, if_neg (by simp only [List.isEmpty_iff_length_eq_zero]; omega)]
  exact ⟨h1, Nat.mod_lt _ h1⟩

lemma appInv_prevTabM (a : MApp) (h : appInv a) : appInv (prevTabM a) := by
  obtain ⟨h1, h2⟩ := h
  rw [prevTabM, if_neg (by simp only [List.isEmpty_iff_length_eq_zero]; omega)]
  constructor <;> simp only [] <;> first | omega | (split <;> omega)

lemma appInv_switchTabDigit (a : MApp) (h : appInv a) (idx : Nat) :
    appInv (switchTabDigit a idx) := by
  obtain ⟨h1, h2⟩ := h
  by_cases hi : idx < a.conversations.length
  · rw [switchTabDigit, if_pos hi]; exact ⟨h1, hi⟩
  · rw [switchTabDigit, if_neg hi]; exact ⟨h1, h2⟩

lemma aAppInv_aNewConversation (b : AApp) : aAppInv (aNewConversation b) := by
  constructor <;>
    simp only [aNewConversation, List.length_append, List.length_cons, List.length_nil] <;>
    omega

lemma aAppInv_aCloseCurrent (b : AApp) (h : aAppInv b) : aAppInv (aCloseCurrent b) := by
  obtain ⟨h1, h2⟩ := h
  by_cases hlen : 1 < b.conversations.length
  · rw [aCloseCurrent, if_pos hlen]
    constructor <;> simp only [List.length_eraseIdx, if_pos h2] <;>
      first | omega | (split <;> omega)
  · rw [aCloseCurrent, if_neg hlen]
    exact ⟨h1, h2⟩

lemma aAppInv_aNextTab (b : AApp) (h : aAppInv b) : aAppInv (aNextTab b) := by
  obtain ⟨h1, h2⟩ := h
  by_cases hc : b.active_tab < b.conversations.length - 1
  · rw [aNextTab, if_pos hc]
    exact ⟨h1, show b.active_tab + 1 < b.conversations.length by omega⟩
  · rw [aNextTab, if_neg hc]; exact ⟨h1, h2⟩

lemma aAppInv_aPrevTab (b : AApp) (h : aAppInv b) : aAppInv (aPrevTab b) := by
  obtain ⟨h1, h2⟩ := h
  by_cases hc : 0 < b.active_tab
  · rw [aPrevTab, if_pos hc]
    exact ⟨h1, show b.active_tab - 1 < b.conversations.length by omega⟩
  · rw [aPrevTab, if_neg hc]; exact ⟨h1, h2⟩

/-- C5: every tab-lifecycle operation — `new_tab`, `close_tab`,
`next_tab`, `prev_tab` and the digit-key switch of `src/main.rs`, and
`new_conversation`, `close_current_conversation`, `next_tab`, `prev_tab`
of `src/app.rs` — preserves the invariant that the conversation sequence
is non-empty and the active-tab index is strictly below its length. -/
theorem tabOps_preserve_invariant (a : MApp) (b : AApp) (h : appInv a) (hb : aAppInv b) :
    appInv (newTab a) ∧ appInv (closeTab a) ∧ appInv (nextTabM a) ∧ appInv (prevTabM a) ∧
    (∀ idx, appInv (switchTabDigit a idx)) ∧
    aAppInv (aNewConversation b) ∧ aAppInv (aCloseCurrent b) ∧
    aAppInv (aNextTab b) ∧ aAppInv (aPrevTab b) :=
  ⟨appInv_newTab a, appInv_closeTab a h, appInv_nextTabM a h, appInv_prevTabM a h,
    fun idx => appInv_switchTabDigit a h idx, aAppInv_aNewConversation b,
    aAppInv_aCloseCurrent b hb, aAppInv_aNextTab b hb, aAppInv_aPrevTab b hb⟩

/-- Witness for C5 at a concrete two-tab state. -/
theorem tabOps_preserve_invariant_witness :
    appInv (newTab ⟨[mConvNew 0, mConvNew 1], 1, 2, none, none, none⟩) ∧
    aAppInv (aCloseCurrent
      ⟨"", 0, AMode.normal, [cConvNew, cConvNew], 0, true, false, none, none, none, none⟩) := by
  have h := tabOps_preserve_invariant
    ⟨[mConvNew 0, mConvNew 1], 1, 2, none, none, none⟩
    ⟨"", 0, AMode.normal, [cConvNew, cConvNew], 0, true, false, none, none, none, none⟩
    (by decide) (by decide)
  exact ⟨h.1, h.2.2.2.2.2.2.1⟩

/-- C4: `close_tab` on a single-conversation state is the identity; on a
larger state it removes exactly the active conversation, shrinks the
count by one, and leaves the active index in range. -/
theorem closeTab_spec (a : MApp) (h : appInv a) :
    (a.conversations.length = 1 → closeTab a = a) ∧
    (1 < a.conversations.length →
      (closeTab a).conversations = a.conversations.eraseIdx a.active_tab ∧
      (closeTab a).conversations.length = a.conversations.length - 1 ∧
      (closeTab a).active_tab < (closeTab a).conversations.length) := by
  obtain ⟨h1, h2⟩ := h
  constructor
  · intro hlen
    rw [closeTab, if_neg (by omega)]
  · intro hlen
    rw [closeTab, if_pos hlen]
    refine ⟨rfl, ?_, ?_⟩
    · simp only [List.length_eraseIdx, if_pos h2]
    · simp only [List.length_eraseIdx, if_pos h2]
      split <;> omega

/-- Witness for C4: closing tab 0 of 3 leaves 2 tabs, the active index
is 0 and now names the former tab 1. -/
theorem closeTab_spec_witness :
    appInv ⟨[mConvNew 0, mConvNew 1, mConvNew 2], 0, 3, none, none, none⟩ ∧
    (closeTab ⟨[mConvNew 0, mConvNew 1, mConvNew 2], 0, 3, none, none, none⟩).conversations =
      [mConvNew 1, mConvNew 2] ∧
    (closeTab ⟨[mConvNew 0, mConvNew 1, mConvNew 2], 0, 3, none, none, none⟩).active_tab = 0 ∧
    (closeTab ⟨[mConvNew 0, mConvNew 1, mConvNew 2], 0, 3, none, none, none⟩).conversations.length
      = 2 := by
  have h := (closeTab_spec ⟨[mConvNew 0, mConvNew 1, mConvNew 2], 0, 3, none, none, none⟩
    (by decide)).2 (by decide)
  refine ⟨by decide, ?_, by decide, ?_⟩
  · rw [h.1]; decide
  · rw [h.2.1]; decide


/-! ## Theorems: submit -/

/-- The state of `src/main.rs` used to refute C3: one idle conversation
with `"Hi"` typed, and no API key configured. -/
def noKeyState : MApp :=
  ⟨[{ mConvNew 0 with input := ⟨"Hi", 2⟩ }], 0, 1, none, none, none⟩

/-- C3 counterexample: with no credential configured, `send_message` on
an idle conversation is *not* a no-op on the message sequence — the
`User` message is appended (and the input cleared) before the missing
key is detected, although no session is started and an error is
surfaced.  This falsifies the claim that the conversation's message
sequence is unchanged in that case. -/
theorem sendMessage_no_key_appends :
    (sendMessage noKeyState).2 = none ∧
    (sendMessage noKeyState).1.error_message =
      some "ANTHROPIC_API_KEY not set. Export it and restart." ∧
    ((noKeyState.conversations.get? 0).map (fun c => c.messages)) = some [] ∧
    (((sendMessage noKeyState).1.conversations.get? 0).map (fun c => c.messages)) =
      some [⟨Role.user, "Hi"⟩] := by
  refine ⟨rfl, rfl, rfl, ?_⟩
  decide

/-- C3 amended: `send_message` on a busy conversation (or with an empty
input) is a complete no-op with no session started; with no credential
configured and a non-empty input on an idle conversation, no session is
started and an error is surfaced, but the `User` message *is* appended
and the input cleared first. -/
theorem sendMessage_reject_spec (a : MApp) (conv : MConversation)
    (hc : a.conversations.get? a.active_tab = some conv) :
    (conv.is_loading = true ∨ conv.input.content = "" → sendMessage a = (a, none)) ∧
    (conv.is_loading = false → conv.input.content ≠ "" → a.api_key = none →
      sendMessage a =
        ({ a with
            conversations := a.conversations.set a.active_tab
              (mAddMessage { conv with input := inputNew } Role.user conv.input.content),
            error_message := some "ANTHROPIC_API_KEY not set. Export it and restart." },
          none)) := by
  constructor
  · intro hrej
    rw [sendMessage, hc]
    dsimp only
    rw [if_pos (show (conv.input.content.isEmpty || conv.is_loading) = true by
      rcases hrej with hl | he
      · simp [hl]
      · simp [he, String.isEmpty_iff])]
  · intro hl he hk
    rw [sendMessage, hc]
    dsimp only
    rw [if_neg (show ¬ ((conv.input.content.isEmpty || conv.is_loading) = true) by
      simp [hl, String.isEmpty_iff, he]), hk]

/-- Witness for C3 amended: a busy conversation rejects the submission
as a full no-op, and the no-key state appends the user message while
starting no session. -/
theorem sendMessage_reject_spec_witness :
    sendMessage
      ⟨[{ mConvNew 4 with input := ⟨"Hi", 2⟩, is_loading := true }], 0, 5, some "k", none, none⟩ =
      (⟨[{ mConvNew 4 with input := ⟨"Hi", 2⟩, is_loading := true }], 0, 5, some "k", none,
        none⟩, none) ∧
    (sendMessage noKeyState).2 = none := by
  constructor
  · exact (sendMessage_reject_spec
      ⟨[{ mConvNew 4 with input := ⟨"Hi", 2⟩, is_loading := true }], 0, 5, some "k", none, none⟩
      { mConvNew 4 with input := ⟨"Hi", 2⟩, is_loading := true } rfl).1 (Or.inl rfl)
  · rw [(sendMessage_reject_spec noKeyState { mConvNew 0 with input := ⟨"Hi", 2⟩ } rfl).2
      rfl (by decide) rfl]

/-! ## Theorems: input-field safety (C10) -/

/-- C10 refuted: the cursor is a byte index moved by 1 per character, so
after inserting the two-byte character `é` into an empty field the
cursor (1) is not a character boundary, and inserting any further
character calls `String::insert` at a non-boundary index, which
panics (modelled as `none`).  The editing operations therefore do not
keep the cursor on character boundaries once a multi-byte character is
typed. -/
theorem inputField_multibyte_cursor_panics :
    applyEditOps inputNew [EditOp.insert 'é'] = some ⟨"é", 1⟩ ∧
    isCharBoundary "é" 1 = false ∧
    applyEditOps inputNew [EditOp.insert 'é', EditOp.insert 'x'] = none ∧
    applyEditOps inputNew [EditOp.insert 'é', EditOp.delete] = none := by
  refine ⟨by decide, by decide, by decide, by decide⟩


/-! ## Theorems: title derivation (C9) -/

/-- A 17-character content whose UTF-8 encoding is 34 bytes. -/
def wideTitleContent : String := "ééééééééééééééééé"

/-- C9 counterexample: adding a first `User` message of 17 characters —
well inside the 30-character budget — still gets an ellipsis appended,
because `generate_title` compares the *byte* length (`String::len`,
here 34) against 30 while truncating by characters.  The title is the
whole content plus `"..."`, so the ellipsis does not coincide with
truncation. -/
theorem generateTitle_ellipsis_on_byte_length :
    wideTitleContent.data.length = 17 ∧
    (cAddMessage cConvNew ⟨Role.user, wideTitleContent, 0⟩).title =
      some (wideTitleContent ++ "...") := by
  constructor
  · decide
  · decide

/-- C9 amended: the title is derived exactly once, at the first
`add_message` that makes a `User` message exist: it is the first `User`
message's content truncated to 30 characters with `"..."` appended if
and only if the content's UTF-8 *byte* length exceeds 30; once set it is
never recomputed. -/
theorem addMessage_title_spec (c : CConversation) (m : CMessage) :
    (c.title ≠ none → (cAddMessage c m).title = c.title) ∧
    (c.title = none → m.role = Role.user → (∀ x ∈ c.messages, x.role ≠ Role.user) →
      (cAddMessage c m).title =
        some (String.mk (m.content.data.take 30) ++
          (if 30 < m.content.utf8ByteSize then "..." else ""))) ∧
    (c.title = none → m.role ≠ Role.user → (∀ x ∈ c.messages, x.role ≠ Role.user) →
      (cAddMessage c m).title = none) := by
  refine ⟨?_, ?_, ?_⟩
  · intro h
    rw [cAddMessage, generateTitle]
    dsimp only
    rw [if_neg h]
  · intro ht hrole hnone
    have hfind : c.messages.find? (fun x => x.role == Role.user) = none := by
      rw [List.find?_eq_none]
      intro x hx
      simpa using hnone x hx
    rw [cAddMessage, generateTitle]
    dsimp only
    rw [if_pos ht, List.find?_append, hfind]
    simp [List.find?, hrole]
  · intro ht hrole hnone
    have hfind : c.messages.find? (fun x => x.role == Role.user) = none := by
      rw [List.find?_eq_none]
      intro x hx
      simpa using hnone x hx
    rw [cAddMessage, generateTitle]
    dsimp only
    rw [if_pos ht, List.find?_append, hfind]
    have hb : (m.role == Role.user) = false := by simpa using hrole
    simp [List.find?, hb]
    exact ht

/-- Witness for C9 amended: a short first user message becomes the
title verbatim, and a later message never recomputes it. -/
theorem addMessage_title_spec_witness :
    (cAddMessage cConvNew ⟨Role.user, "hi", 3⟩).title = some "hi" ∧
    (cAddMessage (cAddMessage cConvNew ⟨Role.user, "hi", 3⟩) ⟨Role.user, "later", 4⟩).title =
      some "hi" := by
  constructor
  · exact ((addMessage_title_spec cConvNew ⟨Role.user, "hi", 3⟩).2.1 rfl rfl
      (by decide)).trans (by decide)
  · exact ((addMessage_title_spec (cAddMessage cConvNew ⟨Role.user, "hi", 3⟩)
      ⟨Role.user, "later", 4⟩).1 (by decide)).trans (by decide)

/-! ## Theorems: per-tab isolation of increments (C8) -/

/-- The per-conversation mutation an increment performs, by case. -/
def eventUpd : AppEvent → MConversation → MConversation
  | AppEvent.streamStart _ => fun c => { c with streaming_content := "" }
  | AppEvent.streamDelta _ txt => fun c =>
      { c with streaming_content := c.streaming_content ++ txt, scroll_offset := usizeMax }
  | AppEvent.streamEnd _ => streamEndUpdate
  | AppEvent.streamError _ _ => fun c => { c with is_loading := false, streaming_content := "" }

lemma processOneEvent_conversations (a : MApp) (e : AppEvent) :
    (processOneEvent a e).conversations =
      updateFirstById a.conversations (eventTab e) (eventUpd e) := by
  cases e <;> simp only [processOneEvent, eventTab, eventUpd] <;> try rfl
  split <;> rfl

lemma updateFirstById_length (l : List MConversation) (t : Nat)
    (f : MConversation → MConversation) : (updateFirstById l t f).length = l.length := by
  induction l with
  | nil => rfl
  | cons c rest ih =>
    rw [updateFirstById]
    split
    · rfl
    · simp only [List.length_cons, ih]

lemma updateFirstById_get?_ne (l : List MConversation) (t : Nat)
    (f : MConversation → MConversation) :
    ∀ i c, l.get? i = some c → c.id ≠ t → (updateFirstById l t f).get? i = some c := by
  induction l with
  | nil => intro i c h; simp at h
  | cons d rest ih =>
    intro i c h hne
    rw [updateFirstById]
    by_cases hd : d.id = t
    · rw [if_pos hd]
      cases i with
      | zero =>
        exfalso
        simp only [List.get?, Option.some.injEq] at h
        subst h
        exact hne hd
      | succ n => exact h
    · rw [if_neg hd]
      cases i with
      | zero => exact h
      | succ n => exact ih n c h hne

lemma updateFirstById_not_mem (l : List MConversation) (t : Nat)
    (f : MConversation → MConversation) (h : ∀ c ∈ l, c.id ≠ t) :
    updateFirstById l t f = l := by
  induction l with
  | nil => rfl
  | cons d rest ih =>
    rw [updateFirstById, if_neg (h d (by simp))]
    rw [ih (fun c hc => h c (by simp [hc]))]

/-- C8: processing an increment tagged with tab id `T` preserves the
number of conversations, leaves every conversation whose id is not `T`
exactly as it was (for any state, hence for any interleaving of two
sessions: increments tagged `A` never mutate conversation `B`), and when
no live conversation has id `T` the increment leaves the conversation
set entirely unchanged. -/
theorem processEvent_isolation (a : MApp) (e : AppEvent) :
    (processOneEvent a e).conversations.length = a.conversations.length ∧
    (∀ i c, a.conversations.get? i = some c → c.id ≠ eventTab e →
      (processOneEvent a e).conversations.get? i = some c) ∧
    ((∀ c ∈ a.conversations, c.id ≠ eventTab e) →
      (processOneEvent a e).conversations = a.conversations) := by
  refine ⟨?_, ?_, ?_⟩
  · rw [processOneEvent_conversations]
    exact updateFirstById_length a.conversations (eventTab e) (eventUpd e)
  · intro i c h hne
    rw [processOneEvent_conversations]
    exact updateFirstById_get?_ne a.conversations (eventTab e) (eventUpd e) i c h hne
  · intro h
    rw [processOneEvent_conversations]
    exact updateFirstById_not_mem a.conversations (eventTab e) (eventUpd e) h

/-- The two-tab state used to witness C8. -/
def isolationState : MApp := ⟨[mConvNew 0, mConvNew 1], 0, 2, none, none, none⟩

/-- Witness for C8: an increment for the closed tab id 5 is discarded,
and an increment for tab 1 leaves conversation 0 untouched. -/
theorem processEvent_isolation_witness :
    (processOneEvent isolationState (AppEvent.streamDelta 5 "x")).conversations =
      isolationState.conversations ∧
    (processOneEvent isolationState (AppEvent.streamDelta 1 "x")).conversations.get? 0 =
      some (mConvNew 0) := by
  constructor
  · exact (processEvent_isolation isolationState (AppEvent.streamDelta 5 "x")).2.2 (by decide)
  · exact (processEvent_isolation isolationState (AppEvent.streamDelta 1 "x")).2.1 0
      (mConvNew 0) rfl (by decide)

def chunkIsTerminal : StreamChunk → Bool
  | StreamChunk.text _ => false
  | StreamChunk.done => true
  | StreamChunk.error _ => true

lemma apiProcessLine_emit_text (l : List Char) (ch : StreamChunk)
    (h : apiProcessLine l = ALineStep.emit ch) : chunkIsTerminal ch = false := by
  unfold apiProcessLine at h
  repeat' split at h
  all_goals cases h
  all_goals rfl

lemma apiProcessLine_halt_terminal (l : List Char) (ch : StreamChunk)
    (h : apiProcessLine l = ALineStep.halt ch) : chunkIsTerminal ch = true := by
  unfold apiProcessLine at h
  repeat' split at h
  all_goals cases h
  all_goals rfl

lemma drainAux_emits_text : ∀ (buf cur : List Char),
    ∀ ch ∈ (drainAux cur buf).1, chunkIsTerminal ch = false := by
  intro buf
  induction buf with
  | nil => intro cur ch hch; simp [drainAux] at hch
  | cons c rest ih =>
    intro cur ch hch
    by_cases hcn : c = '\n'
    · rw [drainAux, if_pos hcn] at hch
      rcases hstep : apiProcessLine cur.reverse with _ | ch2 | ch2 <;> rw [hstep] at hch
      · exact ih [] ch hch
      · rcases hdr : drainAux [] rest with ⟨cs, r⟩
        rw [hdr] at hch
        dsimp only at hch
        rcases List.mem_cons.mp hch with h1 | h2
        · subst h1; exact apiProcessLine_emit_text cur.reverse ch hstep
        · have := ih [] ch
          rw [hdr] at this
          exact this h2
      · simp at hch
    · rw [drainAux, if_neg hcn] at hch
      exact ih (c :: cur) ch hch

lemma drainAux_halt_terminal : ∀ (buf cur : List Char) (t : StreamChunk),
    (drainAux cur buf).2 = Sum.inr t → chunkIsTerminal t = true := by
  intro buf
  induction buf with
  | nil => intro cur t h; simp [drainAux] at h
  | cons c rest ih =>
    intro cur t h
    by_cases hcn : c = '\n'
    · rw [drainAux, if_pos hcn] at h
      rcases hstep : apiProcessLine cur.reverse with _ | ch2 | ch2 <;> rw [hstep] at h
      · exact ih [] t h
      · rcases hdr : drainAux [] rest with ⟨cs, r⟩
        rw [hdr] at h
        dsimp only at h
        have := ih [] t
        rw [hdr] at this
        exact this h
      · simp at h
        subst h
        exact apiProcessLine_halt_terminal cur.reverse _ hstep
    · rw [drainAux, if_neg hcn] at h
      exact ih (c :: cur) t h

def endsWithOneTerminalChunk (l : List StreamChunk) : Prop :=
  ∃ ys t, l = ys ++ [t] ∧ chunkIsTerminal t = true ∧ ∀ y ∈ ys, chunkIsTerminal y = false

lemma apiRun_one_terminal : ∀ (frags : List (Except String (List Nat))) (buf : List Char),
    endsWithOneTerminalChunk (apiRun frags buf) := by
  intro frags
  induction frags with
  | nil => exact fun buf => ⟨[], StreamChunk.done, rfl, rfl, by simp⟩
  | cons frag rest ih =>
    intro buf
    cases frag with
    | error e => exact ⟨[], StreamChunk.error e, rfl, rfl, by simp⟩
    | ok bytes =>
      rw [apiRun]
      rcases hdr : drainAux [] (buf ++ utf8DecodeLossy bytes) with ⟨cs, r⟩
      have hcs : ∀ ch ∈ cs, chunkIsTerminal ch = false := by
        intro ch hch
        have := drainAux_emits_text (buf ++ utf8DecodeLossy bytes) [] ch
        rw [hdr] at this
        exact this hch
      cases r with
      | inl leftover =>
        dsimp only
        obtain ⟨ys, t, heq, hterm, hys⟩ := ih leftover
        refine ⟨cs ++ ys, t, ?_, hterm, ?_⟩
        · rw [heq, List.append_assoc]
        · intro y hy
          rcases List.mem_append.mp hy with h1 | h2
          · exact hcs y h1
          · exact hys y h2
      | inr t =>
        dsimp only
        refine ⟨cs, t, rfl, ?_, hcs⟩
        have := drainAux_halt_terminal (buf ++ utf8DecodeLossy bytes) [] t
        rw [hdr] at this
        exact this rfl

def eventIsTerminal : AppEvent → Bool
  | AppEvent.streamStart _ => false
  | AppEvent.streamDelta _ _ => false
  | AppEvent.streamEnd _ => true
  | AppEvent.streamError _ _ => true

def endsWithOneTerminalEvent (l : List AppEvent) : Prop :=
  ∃ ys t, l = ys ++ [t] ∧ eventIsTerminal t = true ∧ ∀ y ∈ ys, eventIsTerminal y = false

lemma mainProcessLines_one_terminal (tabId : Nat) :
    ∀ lines : List (Except String String),
      endsWithOneTerminalEvent (mainProcessLines tabId lines) := by
  intro lines
  induction lines with
  | nil => exact ⟨[], AppEvent.streamEnd tabId, rfl, rfl, by simp⟩
  | cons l rest ih =>
    cases l with
    | error e => exact ⟨[], AppEvent.streamError tabId ("Read error: " ++ e), rfl, rfl, by simp⟩
    | ok line =>
      rw [mainProcessLines]
      rcases hstep : mainLineStep line.data with _ | t | _ | m <;> dsimp only
      · exact ih
      · obtain ⟨ys, tm, heq, hterm, hys⟩ := ih
        refine ⟨AppEvent.streamDelta tabId t :: ys, tm, by rw [heq, List.cons_append], hterm, ?_⟩
        intro y hy
        rcases List.mem_cons.mp hy with h1 | h2
        · subst h1; rfl
        · exact hys y h2
      · exact ⟨[], AppEvent.streamEnd tabId, rfl, rfl, by simp⟩
      · exact ⟨[], AppEvent.streamError tabId m, rfl, rfl, by simp⟩

/-- C2: every run of a session emits exactly one terminal increment, as
the last element of its output: for the async variant
(`send_message_streaming`) one of `Done`/`Error` over any response
status and any chunk sequence (including an abrupt end, where the final
`Done` is synthesized, and mid-stream transport errors); for the
blocking variant (`stream_api_call`) one of `StreamEnd`/`StreamError`
over any status and any line sequence. -/
theorem session_single_terminal :
    (∀ (status : Nat) (errBody : String) (frags : List (Except String (List Nat))),
      endsWithOneTerminalChunk (apiSendStreaming status errBody frags)) ∧
    (∀ (tabId status : Nat) (errBody : String) (lines : List (Except String String)),
      endsWithOneTerminalEvent (streamApiCall tabId status errBody lines)) := by
  constructor
  · intro status errBody frags
    rw [apiSendStreaming]
    split
    · exact apiRun_one_terminal frags []
    · exact ⟨[], StreamChunk.error ("API error " ++ toString status ++ ": " ++ errBody),
        rfl, rfl, by simp⟩
  · intro tabId status errBody lines
    rw [streamApiCall]
    split
    · obtain ⟨ys, t, heq, hterm, hys⟩ := mainProcessLines_one_terminal tabId lines
      refine ⟨AppEvent.streamStart tabId :: ys, t, by rw [heq, List.cons_append], hterm, ?_⟩
      intro y hy
      rcases List.mem_cons.mp hy with h1 | h2
      · subst h1; rfl
      · exact hys y h2
    · exact ⟨[], AppEvent.streamError tabId (mainClassifyStatus status errBody), rfl, rfl,
        by simp⟩

/-- C6: on a non-success response status `stream_api_call` emits exactly
one increment, a `StreamError` carrying the classification of the
status class, so no `Text` increment ever precedes it; the
classification is: 401 unauthorized, 429 rate-limited, 5xx server
error, and a generic fallback otherwise. -/
theorem non_success_single_classified_error (tabId status : Nat) (errBody : String)
    (lines : List (Except String String)) (h : isSuccessStatus status = false) :
    streamApiCall tabId status errBody lines =
      [AppEvent.streamError tabId (mainClassifyStatus status errBody)] ∧
    (∀ t, AppEvent.streamDelta tabId t ∉ streamApiCall tabId status errBody lines) ∧
    (status = 401 →
      mainClassifyStatus status errBody = "Invalid API key. Check your ANTHROPIC_API_KEY.") ∧
    (status = 429 →
      mainClassifyStatus status errBody = "Rate limited. Please wait and try again.") ∧
    (500 ≤ status → status ≤ 599 →
      mainClassifyStatus status errBody = "API server error. Please try again later.") ∧
    (status ≠ 401 → status ≠ 429 → ¬ (500 ≤ status ∧ status ≤ 599) →
      mainClassifyStatus status errBody =
        "API error (" ++ toString status ++ "): " ++ errBody) := by
  have hmain : streamApiCall tabId status errBody lines =
      [AppEvent.streamError tabId (mainClassifyStatus status errBody)] := by
    rw [streamApiCall, if_neg (by simp [h])]
  refine ⟨hmain, ?_, ?_, ?_, ?_, ?_⟩
  · intro t hmem
    rw [hmain] at hmem
    simp at hmem
  · intro h401
    rw [mainClassifyStatus, if_pos h401]
  · intro h429
    rw [mainClassifyStatus, if_neg (by omega), if_pos h429]
  · intro h5a h5b
    rw [mainClassifyStatus, if_neg (by omega), if_neg (by omega), if_pos ⟨h5a, h5b⟩]
  · intro hn1 hn2 hn5
    rw [mainClassifyStatus, if_neg hn1, if_neg hn2, if_neg hn5]

/-- Witness for C6 at status 429. -/
theorem non_success_single_classified_error_witness :
    streamApiCall 7 429 "body" [] =
      [AppEvent.streamError 7 "Rate limited. Please wait and try again."] := by
  have h := non_success_single_classified_error 7 429 "body" [] (by decide)
  rw [h.1, h.2.2.2.1 rfl]

lemma stringMk_data (s : String) : String.mk s.data = s := by cases s; rfl

lemma drainAux_line : ∀ (line : List Char), '\n' ∉ line → ∀ (rest cur : List Char),
    drainAux cur (line ++ '\n' :: rest) =
      match apiProcessLine (cur.reverse ++ line) with
      | ALineStep.skip => drainAux [] rest
      | ALineStep.emit ch => (ch :: (drainAux [] rest).1, (drainAux [] rest).2)
      | ALineStep.halt ch => ([], Sum.inr ch) := by
  intro line
  induction line with
  | nil =>
    intro _ rest cur
    rw [List.nil_append, drainAux, if_pos rfl, List.append_nil]
  | cons d line2 ih =>
    intro hnl rest cur
    have hd : ¬ d = '\n' := fun hdd => hnl (by rw [hdd]; exact List.mem_cons_self _ _)
    rw [List.cons_append, drainAux, if_neg hd,
      ih (fun hm => hnl (List.mem_cons_of_mem d hm)) rest (d :: cur)]
    rw [List.reverse_cons, List.append_assoc, List.singleton_append]

def frame1 : String :=
  "data: \x7b\"type\":\"content_block_delta\",\"index\":0,\"delta\":\x7b\"type\":\"text_delta\",\"text\":\"Hel\"\x7d\x7d"

def frame2 : String :=
  "data: \x7b\"type\":\"content_block_delta\",\"index\":0,\"delta\":\x7b\"type\":\"text_delta\",\"text\":\"lo\"\x7d\x7d"

lemma dataPrefix_isPrefixOf_append (l : List Char) :
    dataPrefix.isPrefixOf (dataPrefix ++ l) = true := by
  rw [List.isPrefixOf_iff_prefix]
  exact ⟨l, rfl⟩

lemma apiProcessLine_malformed (p : String) (hjson : parseJson p = none) :
    apiProcessLine ("data: " ++ p).data = ALineStep.skip := by
  have hdata : ("data: " ++ p).data = dataPrefix ++ p.data := by
    rw [String.data_append]; rfl
  rw [apiProcessLine, hdata, if_pos (dataPrefix_isPrefixOf_append p.data)]
  rw [show (dataPrefix ++ p.data).drop 6 = p.data from List.drop_left dataPrefix p.data]
  rw [stringMk_data, parseAEvent, hjson]

lemma mainLineStep_malformed (p : String) (hjson : parseJson p = none)
    (hdone : p.data ≠ "[DONE]".data) :
    mainLineStep ("data: " ++ p).data = MLineStep.cont := by
  have hdata : ("data: " ++ p).data = dataPrefix ++ p.data := by
    rw [String.data_append]; rfl
  rw [mainLineStep, hdata, if_pos (dataPrefix_isPrefixOf_append p.data)]
  rw [show (dataPrefix ++ p.data).drop 6 = p.data from List.drop_left dataPrefix p.data]
  dsimp only
  rw [if_neg hdone, stringMk_data, parseMainEvent, hjson]

/-- C7: a `data: ` line whose payload fails to decode (it is not valid
JSON), placed between two valid text-delta frames, is skipped by both
parsers: the async variant still yields `Text("Hel")`, `Text("lo")` and
only then the end-of-stream `Done`, and the blocking variant still
yields both deltas and only then the end-of-stream `StreamEnd` — the
malformed frame alone terminates nothing. -/
theorem malformed_frame_between_texts (tabId : Nat) (p : String)
    (hjson : parseJson p = none) (hnl : '\n' ∉ p.data) (hdone : p.data ≠ "[DONE]".data) :
    apiRun [Except.ok (utf8Encode
        (frame1 ++ "\n" ++ ("data: " ++ p) ++ "\n" ++ frame2 ++ "\n"))] [] =
      [StreamChunk.text "Hel", StreamChunk.text "lo", StreamChunk.done] ∧
    mainProcessLines tabId
        [Except.ok frame1, Except.ok ("data: " ++ p), Except.ok frame2] =
      [AppEvent.streamDelta tabId "Hel", AppEvent.streamDelta tabId "lo",
        AppEvent.streamEnd tabId] := by
  constructor
  · have hS : (frame1 ++ "\n" ++ ("data: " ++ p) ++ "\n" ++ frame2 ++ "\n").data =
        frame1.data ++ '\n' :: (("data: " ++ p).data ++ '\n' :: (frame2.data ++ '\n' :: [])) := by
      simp only [String.data_append, List.append_assoc, List.cons_append, List.nil_append,
        show ("\n" : String).data = ['\n'] from rfl, List.singleton_append]
    have hnl2 : '\n' ∉ ("data: " ++ p).data := by
      rw [String.data_append]
      intro hm
      rcases List.mem_append.mp hm with h1 | h2
      · exact absurd h1 (by decide)
      · exact hnl h2
    rw [apiRun, List.nil_append, utf8DecodeLossy_utf8Encode, hS]
    rw [drainAux_line frame1.data (by decide) _ []]
    rw [show (List.reverse ([] : List Char) ++ frame1.data) = frame1.data from rfl]
    rw [show apiProcessLine frame1.data = ALineStep.emit (StreamChunk.text "Hel") by decide]
    dsimp only
    rw [drainAux_line ("data: " ++ p).data hnl2 _ []]
    rw [show (List.reverse ([] : List Char) ++ ("data: " ++ p).data) = ("data: " ++ p).data
      from rfl]
    rw [apiProcessLine_malformed p hjson]
    dsimp only
    rw [drainAux_line frame2.data (by decide) _ []]
    rw [show (List.reverse ([] : List Char) ++ frame2.data) = frame2.data from rfl]
    rw [show apiProcessLine frame2.data = ALineStep.emit (StreamChunk.text "lo") by decide]
    dsimp only
    rfl
  · have h1 : mainLineStep frame1.data = MLineStep.emitDelta "Hel" := by decide
    have h2 : mainLineStep frame2.data = MLineStep.emitDelta "lo" := by decide
    simp only [mainProcessLines, h1, h2, mainLineStep_malformed p hjson hdone]

/-- Witness for C7 with the malformed payload `{not json`. -/
theorem malformed_frame_between_texts_witness :
    apiRun [Except.ok (utf8Encode
        (frame1 ++ "\n" ++ ("data: " ++ "\x7bnot json") ++ "\n" ++ frame2 ++ "\n"))] [] =
      [StreamChunk.text "Hel", StreamChunk.text "lo", StreamChunk.done] ∧
    mainProcessLines 3
        [Except.ok frame1, Except.ok ("data: " ++ "\x7bnot json"), Except.ok frame2] =
      [AppEvent.streamDelta 3 "Hel", AppEvent.streamDelta 3 "lo", AppEvent.streamEnd 3] :=
  malformed_frame_between_texts 3 "\x7bnot json" rfl (by decide) (by decide)

/-- The text of the single streamed frame used to refute C1, up to the
two-byte character `é` inside the `text_delta` payload. -/
def framePre : String :=
  "data: \x7b\"type\":\"content_block_delta\",\"delta\":\x7b\"type\":\"text_delta\",\"text\":\""

/-- The rest of that frame, after the character. -/
def framePost : String := "\"\x7d\x7d\n"

/-- C1 refuted on `src/api.rs`: the same frame bytes delivered as one
chunk yield `Text("é")`, but delivered as two chunks split between the
two bytes of `é` they yield a `Text` of two replacement characters —
`from_utf8_lossy` runs per chunk, before line assembly, so a character
split across two reads *is* corrupted.  The first conjunct shows the two
runs consume exactly the same bytes. -/
theorem api_parser_corrupts_split_character :
    utf8Encode framePre ++ [0xC3] ++ ([0xA9] ++ utf8Encode framePost) =
      utf8Encode (framePre ++ "é" ++ framePost) ∧
    apiRun [Except.ok (utf8Encode (framePre ++ "é" ++ framePost))] [] =
      [StreamChunk.text "é", StreamChunk.done] ∧
    apiRun [Except.ok (utf8Encode framePre ++ [0xC3]),
        Except.ok ([0xA9] ++ utf8Encode framePost)] [] =
      [StreamChunk.text (String.mk [replacementChar, replacementChar]), StreamChunk.done] ∧
    String.mk [replacementChar, replacementChar] ≠ "é" := by
  refine ⟨by decide, by decide, by decide, by decide⟩
end ClaudeTui
